import Mathlib

/-!
Verification of the deployment / cache-purge orchestrator scripts.

The repository consists of:
* `scripts/purge-cache.ts` — the `CloudflareCachePurger` class: loads
  `.prod.vars`, validates the production environment and API token, and
  issues a single cache-purge HTTP POST whose failure is always tolerated;
* `scripts/simple-deploy.ts` — `SimpleDeploymentManager`: validates required
  build variables, cleans caches (non-blocking), builds, deploys, exiting 1
  on build/deploy/validation failure;
* `simple-deploy.sh` (shell pipeline) — loads `.prod.vars` (exit 1 when the
  file is missing), checks the token, builds, deploys, then runs the purge
  script ignoring its outcome;
* `git-push.sh` — loads `.prod.vars` when present (silent no-op otherwise)
  and pushes, exiting 1 only when the GitHub token is unset.

JavaScript strings are modelled as `List Char`; the process environment as an
association list where a later `envSet` shadows earlier entries, matching
in-place mutation of `process.env`.  JavaScript truthiness of
`process.env[key]` (undefined OR empty string are falsy) is modelled by
`envFalsy`.
-/

abbrev Str := List Char

abbrev EnvMap := List (Str × Str)

/-- Lookup of `process.env[key]`: first binding for the key, if any. -/
def envGet (e : EnvMap) (key : Str) : Option Str :=
  match e with
  | [] => none
  | (k, v) :: rest => if k = key then some v else envGet rest key

/-- Mutation `process.env[key] = value`, modelled by a shadowing prepend. -/
def envSet (e : EnvMap) (key value : Str) : EnvMap :=
  (key, value) :: e

/-- JavaScript falsiness of `process.env[key]`: `undefined` or `""`. -/
def envFalsy (v : Option Str) : Bool :=
  match v with
  | none => true
  | some [] => true
  | some (_ :: _) => false

/-- Whitespace characters stripped by JavaScript `String.prototype.trim`
(ASCII subset: space, tab, newline, carriage return, vertical tab,
form feed; the non-ASCII code points never occur in the inputs at hand). -/
def isJsWhitespaceChar (c : Char) : Bool :=
  c == ' ' || c == '\t' || c == '\n' || c == '\r' ||
  c == Char.ofNat 11 || c == Char.ofNat 12

/-- JavaScript `s.trim()`. -/
def jsTrim (l : Str) : Str :=
  ((l.dropWhile isJsWhitespaceChar).reverse.dropWhile isJsWhitespaceChar).reverse

/-- JavaScript `s.split(c)` for a one-character separator: `"".split(c)`
is `[""]`, and separators at the ends produce empty groups. -/
def splitOnChar (c : Char) : Str → List Str
  | [] => [[]]
  | x :: xs =>
    let r := splitOnChar c xs
    if x = c then [] :: r
    else
      match r with
      | [] => [[x]]
      | g :: gs => (x :: g) :: gs

/-- JavaScript `parts.join(c)` for a one-character separator. -/
def joinWithChar (c : Char) : List Str → Str
  | [] => []
  | [g] => g
  | g :: gs => g ++ c :: joinWithChar c gs

/-- JavaScript `parts.join(sep)` for a general separator. -/
def joinWithSep (sep : Str) : List Str → Str
  | [] => []
  | [g] => g
  | g :: gs => g ++ sep ++ joinWithSep sep gs

/-- JavaScript `s.startsWith('#')`. -/
def startsWithHash (l : Str) : Bool :=
  match l with
  | [] => false
  | c :: _ => c == '#'

/-- Character class `["']` of the quote-stripping regular expression. -/
def isQuoteChar (c : Char) : Bool :=
  c == '"' || c == '\''

/-- JavaScript `value.replace(/^["'](.*)["']$/, '$1')`: the pattern matches
exactly when the string has length at least two, begins and ends with a
quote character, and the enclosed text contains no line terminator
(JavaScript `.` does not match `\n` or `\r`); on a match the quotes are
removed, otherwise the string is returned unchanged. -/
def stripSurroundingQuotes (l : Str) : Str :=
  if 2 ≤ l.length ∧ isQuoteChar (l.headD ' ') = true ∧
     isQuoteChar (l.getLastD ' ') = true ∧
     ∀ c ∈ (l.drop 1).dropLast, c ≠ '\n' ∧ c ≠ '\r'
  then (l.drop 1).dropLast
  else l

/-- One iteration of the `.prod.vars` parsing loop of
`CloudflareCachePurger.loadEnvironmentVariables`:
trim the line; skip it unless it is non-blank, does not start with `#`
and contains `=`; split on `=` into the key and the rejoined remainder;
truncate the value at the first `#` and trim; strip surrounding quotes;
finally bind the key only when `process.env[key]` is falsy. -/
def processLine (env : EnvMap) (line : Str) : EnvMap :=
  if jsTrim line ≠ [] ∧ startsWithHash (jsTrim line) = false ∧
     '=' ∈ jsTrim line then
    match splitOnChar '=' (jsTrim line) with
    | [] => env
    | key :: valueParts =>
      if envFalsy (envGet env key) = true then
        envSet env key (stripSurroundingQuotes (jsTrim
          ((splitOnChar '#' (joinWithChar '=' valueParts)).headD [])))
      else env
  else env

/-- State of the local `.prod.vars` settings file as seen by the loader:
missing, present but unreadable (`readFileSync` throws — caught and logged),
or readable with the given content. -/
inductive FileState where
  | missing
  | unreadable
  | readable (content : Str)
  deriving DecidableEq

/-- `CloudflareCachePurger.loadEnvironmentVariables`: a missing file is a
silent no-op, a read error is caught (warning logged, no bindings), and
otherwise each line of the content is processed in order. -/
def loadEnvFile (env : EnvMap) : FileState → EnvMap
  | .missing => env
  | .unreadable => env
  | .readable content => (splitOnChar '\n' content).foldl processLine env

def environmentKey : Str := "ENVIRONMENT".toList

def nodeEnvKey : Str := "NODE_ENV".toList

def cloudflareTokenKey : Str := "CLOUDFLARE_API_TOKEN".toList

def prodLiteral : Str := "prod".toList

def productionLiteral : Str := "production".toList

def developmentLiteral : Str := "development".toList

/-- JavaScript truthiness filter on an optional string: an empty string is
falsy, so `a || b` keeps `a` only when it is a non-empty string. -/
def jsStrTruthy : Option Str → Option Str
  | some (c :: cs) => some (c :: cs)
  | _ => none

/-- `process.env.ENVIRONMENT || process.env.NODE_ENV || 'development'`. -/
def resolvedEnvironmentMarker (env : EnvMap) : Str :=
  match jsStrTruthy (envGet env environmentKey) with
  | some s => s
  | none =>
    match jsStrTruthy (envGet env nodeEnvKey) with
    | some s => s
    | none => developmentLiteral

/-- Outcome of `CloudflareCachePurger.validateEnvironment`: skip with exit
code 0 when not in production, skip with exit code 0 when required
variables are falsy, otherwise proceed to purging. -/
inductive PurgeValidation where
  | skippedNotProduction
  | skippedMissingVars (missing : List Str)
  | proceed
  deriving DecidableEq

/-- `CloudflareCachePurger.validateEnvironment`: both skip outcomes call
`process.exit(0)` so that a skipped purge never fails a deployment. -/
def purgeValidate (env : EnvMap) : PurgeValidation :=
  if resolvedEnvironmentMarker env ≠ prodLiteral ∧
     resolvedEnvironmentMarker env ≠ productionLiteral then
    .skippedNotProduction
  else if [cloudflareTokenKey].filter (fun v => envFalsy (envGet env v)) ≠ [] then
    .skippedMissingVars
      ([cloudflareTokenKey].filter (fun v => envFalsy (envGet env v)))
  else .proceed

def missingVarsMsgHead : Str := "Missing required build variables: ".toList

def missingVarsMsgTail : Str :=
  "\nPlease ensure all required build variables are configured in your deployment.".toList

/-- Text of the error thrown by `SimpleDeploymentManager.validateEnvironment`:
the missing variable names joined with a comma. -/
def missingVarsMessage (missing : List Str) : Str :=
  missingVarsMsgHead ++ joinWithSep (", ".toList) missing ++ missingVarsMsgTail

/-- Body of `SimpleDeploymentManager.validateEnvironment`, parameterised by
the hard-coded required-variable list: filter the variables whose
environment value is falsy and throw an error naming all of them when any
exist. -/
def validateRequiredVars (requiredVars : List Str) (env : EnvMap) :
    Except Str Unit :=
  if requiredVars.filter (fun v => envFalsy (envGet env v)) ≠ [] then
    .error (missingVarsMessage
      (requiredVars.filter (fun v => envFalsy (envGet env v))))
  else .ok ()

/-- `SimpleDeploymentManager.validateEnvironment` with its hard-coded
`requiredBuildVars = ['CLOUDFLARE_API_TOKEN']`. -/
def deployValidateEnvironment (env : EnvMap) : Except Str Unit :=
  validateRequiredVars [cloudflareTokenKey] env

/-- `ok`/`error` discriminator used to state facts about the validator. -/
def exceptIsOk (e : Except Str Unit) : Bool :=
  match e with
  | .ok _ => true
  | .error _ => false

/-- A run of `simple-deploy.ts` (`new SimpleDeploymentManager()` followed by
`deploy()`), as a function of the exit statuses of the external `npm run
build` and `npx wrangler deploy` commands.  Returns the process exit code
and whether the deploy command was invoked.  A validation error thrown by
the constructor is uncaught, so Node exits 1 before `deploy()` runs; the
cache-cleaning step is wrapped in its own try/catch and never alters
control flow; a build or deploy failure is caught by `deploy()` which
prints troubleshooting hints and calls `process.exit(1)`. -/
def managerRun (env : EnvMap) (buildExit deployExit : Nat) : Nat × Bool :=
  match deployValidateEnvironment env with
  | .error _ => (1, false)
  | .ok _ =>
    if buildExit ≠ 0 then (1, false)
    else if deployExit ≠ 0 then (1, true)
    else (0, true)

/-- JSON body of the single purge POST: `{purge_everything: true}` or
`{files: [urls...]}`. -/
inductive PurgeBody where
  | purgeEverything
  | files (urls : List String)
  deriving DecidableEq

/-- Parsed purge-endpoint response body (`CloudflareCachePurgeResponse`). -/
structure PurgeResponseBody where
  success : Bool
  errors : List (Nat × String)
  messages : List (Nat × String)
  resultId : String
  deriving DecidableEq

/-- Outcome of the `fetch` call and subsequent `response.json()`:
the fetch may throw (network error), the JSON parse may throw, or a
response with an HTTP status, status text and parsed body is obtained. -/
inductive FetchOutcome where
  | fetchThrew (msg : String)
  | jsonThrew (msg : String)
  | ok (status : Nat) (statusText : String) (body : PurgeResponseBody)
  deriving DecidableEq

/-- `Response.ok` of the Fetch API: HTTP status in the 2xx range. -/
def responseOk (status : Nat) : Bool :=
  decide (200 ≤ status ∧ status < 300)

/-- The purge attempt counts as failed exactly when the claim's three cases
apply: a thrown network error, a thrown JSON error, a non-2xx status, or a
`success:false` response. -/
def purgeAttemptFailed : FetchOutcome → Bool
  | .fetchThrew _ => true
  | .jsonThrew _ => true
  | .ok status _ body => !responseOk status || !body.success

/-- Result of one purge call: either a successful purge with its identifier,
or a failure that was caught, logged and deliberately not rethrown
("Don't fail deployment for cache purge failures"). -/
inductive PurgeResult where
  | purged (id : String)
  | toleratedFailure (msg : String)
  deriving DecidableEq

/-- `result.errors?.[0]?.message || HTTP ${status}: ${statusText}` — the
first error message when present and non-empty (JavaScript `||`),
otherwise the HTTP fallback text. -/
def cachePurgeErrorHead (status : Nat) (statusText : String)
    (body : PurgeResponseBody) : String :=
  match body.errors.head? with
  | some e =>
    if e.2 = "" then "HTTP " ++ toString status ++ ": " ++ statusText else e.2
  | none => "HTTP " ++ toString status ++ ": " ++ statusText

/-- `CloudflareCachePurger.purgeAllCache`: one POST with
`{purge_everything: true}`; on `!response.ok || !result.success` an error
is thrown and immediately caught by the surrounding try/catch, which logs
and returns normally. -/
def purgeAllCacheCall : FetchOutcome → PurgeBody × PurgeResult
  | .fetchThrew m => (.purgeEverything, .toleratedFailure m)
  | .jsonThrew m => (.purgeEverything, .toleratedFailure m)
  | .ok status statusText body =>
    (.purgeEverything,
     if !responseOk status || !body.success then
       .toleratedFailure
         ("Cache purge failed: " ++ cachePurgeErrorHead status statusText body)
     else .purged body.resultId)

/-- `CloudflareCachePurger.purgeSpecificUrls`: one POST with
`{files: urls}`; same catch-and-tolerate error handling as
`purgeAllCache`. -/
def purgeSpecificUrlsCall (urls : List String) :
    FetchOutcome → PurgeBody × PurgeResult
  | .fetchThrew m => (.files urls, .toleratedFailure m)
  | .jsonThrew m => (.files urls, .toleratedFailure m)
  | .ok status statusText body =>
    (.files urls,
     if !responseOk status || !body.success then
       .toleratedFailure
         ("Cache purge failed: " ++ cachePurgeErrorHead status statusText body)
     else .purged body.resultId)

/-- The fixed URL list of `CloudflareCachePurger.purgeCommonAssets`. -/
def commonUrls : List String :=
  ["https://sportbuilt.me/",
   "https://sportbuilt.me/index.html",
   "https://sportbuilt.me/api/auth/providers",
   "https://sportbuilt.me/assets/index.css",
   "https://sportbuilt.me/assets/index.js",
   "https://sportbuilt.me/favicon.ico",
   "https://sportbuilt.me/logo.svg"]

/-- `process.argv[2] || 'all'`. -/
def jsTruthyOrString (a : Option String) (b : String) : String :=
  match a with
  | some s => if s = "" then b else s
  | none => b

/-- Observable outcome of one run of the purge script: its process exit
code, the bodies of the POST requests it issued (in order), and the
results of the purge calls it performed. -/
structure PurgeScriptResult where
  exitCode : Nat
  requests : List PurgeBody
  results : List PurgeResult
  deriving DecidableEq

/-- A run of `purge-cache.ts`'s `main`: the `CloudflareCachePurger`
constructor loads `.prod.vars` and validates (both skip outcomes are
`process.exit(0)`, issuing no request); then the mode argument selects
`all`, `common` or `urls`; `urls` with no URL arguments prints the usage
message and exits 1; an unknown mode exits 1; every performed purge call
tolerates its own failure, so the script ends with exit code 0. -/
def purgeScriptRun (env0 : EnvMap) (file : FileState) (argv2 : Option String)
    (urls : List String) (o : FetchOutcome) : PurgeScriptResult :=
  match purgeValidate (loadEnvFile env0 file) with
  | .skippedNotProduction => ⟨0, [], []⟩
  | .skippedMissingVars _ => ⟨0, [], []⟩
  | .proceed =>
    if jsTruthyOrString argv2 "all" = "all" then
      ⟨0, [(purgeAllCacheCall o).1], [(purgeAllCacheCall o).2]⟩
    else if jsTruthyOrString argv2 "all" = "common" then
      ⟨0, [(purgeSpecificUrlsCall commonUrls o).1],
          [(purgeSpecificUrlsCall commonUrls o).2]⟩
    else if jsTruthyOrString argv2 "all" = "urls" then
      if urls = [] then ⟨1, [], []⟩
      else ⟨0, [(purgeSpecificUrlsCall urls o).1],
               [(purgeSpecificUrlsCall urls o).2]⟩
    else ⟨1, [], []⟩

/-- Observable outcome of one run of the `simple-deploy.sh` pipeline. -/
structure ShellRunResult where
  exitCode : Nat
  deployInvoked : Bool
  purgeRun : Option PurgeScriptResult
  deriving DecidableEq

/-- The `simple-deploy.sh` pipeline: exit 1 when `.prod.vars` is missing;
exit 1 when `CLOUDFLARE_API_TOKEN` is empty after loading; exit 1 when
`npm run build` fails (before `npx wrangler deploy` is invoked); exit 1
when the deploy fails; on deploy success the purge script is run with
mode `all` and its outcome is ignored — the script ends with `echo`
commands, so the overall exit status is 0. -/
def simpleDeployShell (fileExists tokenAfterLoad : Bool)
    (buildExit deployExit : Nat) (purgeScript : PurgeScriptResult) :
    ShellRunResult :=
  if fileExists = false then ⟨1, false, none⟩
  else if tokenAfterLoad = false then ⟨1, false, none⟩
  else if buildExit ≠ 0 then ⟨1, false, none⟩
  else if deployExit ≠ 0 then ⟨1, true, none⟩
  else ⟨0, true, some purgeScript⟩

/-- The `git-push.sh` script: the `.prod.vars` load is guarded by a file
test with no else-branch, so a missing file is a silent no-op; the exit
status depends only on whether `GITHUB_ACCESS_TOKEN` is set afterwards
(the script ends with an `echo`, so git failures do not change it). -/
def gitPushRun (_fileExists tokenAfterLoad : Bool) : Nat :=
  if tokenAfterLoad = false then 1 else 0

/-- Characters following the value in a settings line of the shape
`KEY="value" # comment`: closing quote, space, hash, and comment text. -/
def commentTailChars : Str := '"' :: ' ' :: '#' :: ' ' :: "comment".toList

/-- A settings-file line of the shape `KEY="value" # comment`, with the key
and the quoted value as parameters. -/
def quotedCommentLine (key v : Str) : Str :=
  key ++ '=' :: '"' :: (v ++ commentTailChars)

/-! ## Helper lemmas about the string model -/

theorem splitOnChar_ne_nil (c : Char) (l : Str) : splitOnChar c l ≠ [] := by
  induction l with
  | nil => simp [splitOnChar]
  | cons x xs ih =>
    simp only [splitOnChar]
    split
    · simp
    · cases h : splitOnChar c xs with
      | nil => simp
      | cons g gs => simp [h]

theorem splitOnChar_not_mem {c : Char} {l : Str} (h : c ∉ l) :
    splitOnChar c l = [l] := by
  induction l with
  | nil => rfl
  | cons x xs ih =>
    simp only [List.mem_cons, not_or] at h
    have hxc : ¬ x = c := fun hx => h.1 hx.symm
    simp only [splitOnChar, if_neg hxc, ih h.2]

theorem splitOnChar_append {c : Char} {xs : Str} (ys : Str) (h : c ∉ xs) :
    splitOnChar c (xs ++ c :: ys) = xs :: splitOnChar c ys := by
  induction xs with
  | nil => simp [splitOnChar]
  | cons x xt ih =>
    simp only [List.mem_cons, not_or] at h
    have hxc : ¬ x = c := fun hx => h.1 hx.symm
    simp only [List.cons_append, splitOnChar, if_neg hxc]
    rw [show xt.append (c :: ys) = xt ++ c :: ys from rfl, ih h.2]

theorem joinWithChar_splitOnChar (c : Char) (l : Str) :
    joinWithChar c (splitOnChar c l) = l := by
  induction l with
  | nil => rfl
  | cons x xs ih =>
    simp only [splitOnChar]
    split
    · rename_i hx
      cases h : splitOnChar c xs with
      | nil => exact absurd h (splitOnChar_ne_nil c xs)
      | cons g gs =>
        rw [h] at ih
        subst hx
        simp [joinWithChar, ih]
    · cases h : splitOnChar c xs with
      | nil => exact absurd h (splitOnChar_ne_nil c xs)
      | cons g gs =>
        rw [h] at ih
        cases gs with
        | nil => simp_all [joinWithChar]
        | cons g' gs' => simp_all [joinWithChar]

theorem not_mem_splitOnChar_head (c : Char) (l : Str) :
    c ∉ (splitOnChar c l).headD [] := by
  induction l with
  | nil => simp [splitOnChar]
  | cons x xs ih =>
    simp only [splitOnChar]
    split
    · simp
    · rename_i hx
      cases h : splitOnChar c xs with
      | nil =>
        simp only [List.headD_cons, List.mem_cons, List.not_mem_nil, or_false]
        exact fun hc => hx hc.symm
      | cons g gs =>
        rw [h] at ih
        simp only [List.headD_cons] at ih ⊢
        simp only [List.mem_cons, not_or]
        exact ⟨fun hc => hx hc.symm, ih⟩

theorem mem_jsTrim {a : Char} {l : Str} (h : a ∈ jsTrim l) : a ∈ l := by
  unfold jsTrim at h
  rw [List.mem_reverse] at h
  have h1 := (List.dropWhile_sublist _ (l := (l.dropWhile isJsWhitespaceChar).reverse)).subset h
  rw [List.mem_reverse] at h1
  exact (List.dropWhile_sublist _ (l := l)).subset h1

theorem mem_stripSurroundingQuotes {a : Char} {l : Str}
    (h : a ∈ stripSurroundingQuotes l) : a ∈ l := by
  unfold stripSurroundingQuotes at h
  split at h
  · exact (List.drop_sublist 1 l).subset ((List.dropLast_sublist _).subset h)
  · exact h

/-- The value bound by one loader iteration never contains `#`. -/
theorem processLine_value_no_hash (value0 : Str) :
    '#' ∉ stripSurroundingQuotes (jsTrim ((splitOnChar '#' value0).headD [])) := by
  intro h
  exact not_mem_splitOnChar_head '#' value0 (mem_jsTrim (mem_stripSurroundingQuotes h))

/-- A loader iteration either leaves the environment untouched or binds one
key (whose current value is falsy) to a value containing no `#`. -/
theorem processLine_cases (env : EnvMap) (line : Str) :
    processLine env line = env ∨
    ∃ k val, envFalsy (envGet env k) = true ∧
      processLine env line = (k, val) :: env ∧ '#' ∉ val := by
  unfold processLine
  split
  · cases hsp : splitOnChar '=' (jsTrim line) with
    | nil => left; simp [hsp]
    | cons key valueParts =>
      by_cases hf : envFalsy (envGet env key) = true
      · right
        refine ⟨key, _, hf, ?_,
          processLine_value_no_hash (joinWithChar '=' valueParts)⟩
        simp [hsp, hf, envSet]
      · left
        simp [hsp, hf]
  · left; rfl

theorem envGet_cons (k v : Str) (e : EnvMap) (key : Str) :
    envGet ((k, v) :: e) key = if k = key then some v else envGet e key := rfl

/-- Fold preservation principle for the line-processing loop. -/
theorem foldl_processLine_preserve (P : EnvMap → Prop)
    (h : ∀ e l, P e → P (processLine e l)) :
    ∀ (ls : List Str) (e : EnvMap), P e → P (ls.foldl processLine e) := by
  intro ls
  induction ls with
  | nil => intro e he; simpa using he
  | cons l ls ih =>
    intro e he
    simpa using ih (processLine e l) (h e l he)

/-- Any key bound to a non-empty value survives one loader iteration
unchanged: the truthiness guard refuses to overwrite it. -/
theorem processLine_preserves_nonEmpty {env : EnvMap} {key v : Str}
    (hv : v ≠ []) (h : envGet env key = some v) (line : Str) :
    envGet (processLine env line) key = some v := by
  rcases processLine_cases env line with heq | ⟨k, val, hf, heq, _⟩
  · rw [heq, h]
  · rw [heq, envGet_cons]
    split
    · rename_i hk
      subst hk
      rw [h] at hf
      cases v with
      | nil => exact absurd rfl hv
      | cons c cs => simp [envFalsy] at hf
    · exact h

/-- Loading the settings file preserves every key whose current value is a
non-empty string, for any file state and content. -/
theorem loadEnvFile_preserves_nonEmpty {env : EnvMap} {key v : Str}
    (hv : v ≠ []) (h : envGet env key = some v) (file : FileState) :
    envGet (loadEnvFile env file) key = some v := by
  cases file with
  | missing => exact h
  | unreadable => exact h
  | readable content =>
    exact foldl_processLine_preserve (fun e => envGet e key = some v)
      (fun e l he => processLine_preserves_nonEmpty hv he l) _ env h

/-- Any environment value present after loading either was already present
before loading or contains no `#`. -/
theorem loadEnvFile_no_hash (env : EnvMap) (file : FileState) (key v : Str)
    (h : envGet (loadEnvFile env file) key = some v) :
    envGet env key = some v ∨ '#' ∉ v := by
  cases file with
  | missing => exact .inl h
  | unreadable => exact .inl h
  | readable content =>
    refine foldl_processLine_preserve
      (fun e => ∀ k w, envGet e k = some w → envGet env k = some w ∨ '#' ∉ w)
      ?_ (splitOnChar '\n' content) env (fun k w hw => .inl hw) key v h
    intro e l he k w hw
    rcases processLine_cases e l with heq | ⟨k', val, _, heq, hval⟩
    · rw [heq] at hw
      exact he k w hw
    · rw [heq, envGet_cons] at hw
      split at hw
      · cases hw
        exact .inr hval
      · exact he k w hw


theorem jsTrim_quote_wrapped (v : Str) :
    jsTrim ('"' :: (v ++ ['"', ' '])) = '"' :: (v ++ ['"']) := by
  have h1 : ('"' :: (v ++ ['"', ' '])).dropWhile isJsWhitespaceChar
      = '"' :: (v ++ ['"', ' ']) :=
    List.dropWhile_cons_of_neg (by decide)
  have h2 : ('"' :: (v ++ ['"', ' '])).reverse
      = ' ' :: '"' :: (v.reverse ++ ['"']) := by
    simp [List.reverse_cons, List.reverse_append]
  have h3 : (' ' :: '"' :: (v.reverse ++ ['"'])).dropWhile isJsWhitespaceChar
      = '"' :: (v.reverse ++ ['"']) := by
    rw [List.dropWhile_cons_of_pos (by decide),
      List.dropWhile_cons_of_neg (by decide)]
  have h4 : ('"' :: (v.reverse ++ ['"'])).reverse = '"' :: (v ++ ['"']) := by
    simp [List.reverse_cons, List.reverse_append]
  unfold jsTrim
  rw [h1, h2, h3, h4]

theorem stripSurroundingQuotes_wrapped (v : Str)
    (hv : ∀ c ∈ v, c ≠ '\n' ∧ c ≠ '\r') :
    stripSurroundingQuotes ('"' :: (v ++ ['"'])) = v := by
  have hdrop : ('"' :: (v ++ ['"'])).drop 1 = v ++ ['"'] := rfl
  have hlast : (v ++ ['"']).dropLast = v := List.dropLast_concat
  unfold stripSurroundingQuotes
  rw [if_pos]
  · rw [hdrop, hlast]
  · refine ⟨?_, rfl, ?_, ?_⟩
    · simp
    · rw [show ('"' :: (v ++ ['"'])) = ('"' :: v) ++ ['"'] from by simp,
        List.getLastD_eq_getLast?, List.getLast?_concat]
      rfl
    · intro c hc
      rw [hdrop, hlast] at hc
      exact hv c hc

/-! ## Claim theorems -/

/-- C5: for a non-comment, non-blank settings-file line containing `=`, the
loader splits at the first `=` (the key may not contain `=`, the value may),
strips the inline `#` comment and the surrounding quotes from the value; in
particular a line of the shape `KEY="value" # comment` yields the
environment binding `KEY = value`.  The truthiness guard of the loader
requires the key not to be already set to a non-empty value
(`envFalsy`), matching the spec's "set only if not already set". -/
theorem quotedValueInlineCommentParsed (env : EnvMap) (key v : Str)
    (hfalsy : envFalsy (envGet env key) = true)
    (hkNL : '\n' ∉ key) (hkEq : '=' ∉ key)
    (htrim : jsTrim (quotedCommentLine key v) = quotedCommentLine key v)
    (hhash : startsWithHash (quotedCommentLine key v) = false)
    (hv : ∀ c ∈ v, c ≠ '#' ∧ c ≠ '\n' ∧ c ≠ '\r') :
    envGet (loadEnvFile env (.readable (quotedCommentLine key v))) key
      = some v := by
  have hnl : '\n' ∉ quotedCommentLine key v := by
    intro h
    rcases List.mem_append.1 h with h | h
    · exact hkNL h
    · rcases List.mem_cons.1 h with h1 | h
      · exact absurd h1 (by decide)
      rcases List.mem_cons.1 h with h1 | h
      · exact absurd h1 (by decide)
      rcases List.mem_append.1 h with h | h
      · exact (hv _ h).2.1 rfl
      · exact absurd h (by decide)
  have hL : loadEnvFile env (.readable (quotedCommentLine key v))
      = processLine env (quotedCommentLine key v) := by
    show (splitOnChar '\n' (quotedCommentLine key v)).foldl processLine env
        = processLine env (quotedCommentLine key v)
    rw [splitOnChar_not_mem hnl]
    rfl
  rw [hL]
  unfold processLine
  rw [htrim]
  have hcond : quotedCommentLine key v ≠ [] ∧
      startsWithHash (quotedCommentLine key v) = false ∧
      '=' ∈ quotedCommentLine key v := by
    refine ⟨?_, hhash, ?_⟩
    · intro h
      have h2 := (List.append_eq_nil.1 h).2
      simp at h2
    · exact List.mem_append_right _ (List.mem_cons_self _ _)
  rw [if_pos hcond]
  have hsplit : splitOnChar '=' (quotedCommentLine key v)
      = key :: splitOnChar '=' ('"' :: (v ++ commentTailChars)) := by
    unfold quotedCommentLine
    exact splitOnChar_append _ hkEq
  rw [hsplit]
  have hjoin : joinWithChar '='
      (splitOnChar '=' ('"' :: (v ++ commentTailChars)))
      = '"' :: (v ++ commentTailChars) := joinWithChar_splitOnChar _ _
  have hnohash : '#' ∉ '"' :: (v ++ ['"', ' ']) := by
    intro h
    rcases List.mem_cons.1 h with h1 | h
    · exact absurd h1 (by decide)
    rcases List.mem_append.1 h with h | h
    · exact (hv _ h).1 rfl
    · exact absurd h (by decide)
  have hrest : '"' :: (v ++ commentTailChars)
      = ('"' :: (v ++ ['"', ' '])) ++ '#' :: (' ' :: "comment".toList) := by
    simp [commentTailChars]
  have hsplit2 : (splitOnChar '#' ('"' :: (v ++ commentTailChars))).headD []
      = '"' :: (v ++ ['"', ' ']) := by
    rw [hrest, splitOnChar_append _ hnohash]
    rfl
  simp only [hjoin, hsplit2, jsTrim_quote_wrapped,
    stripSurroundingQuotes_wrapped v (fun c hc => (hv c hc).2),
    hfalsy, if_pos]
  simp [envSet, envGet_cons]

/-- Closed witness for C5 at the concrete line `KEY="value" # comment`. -/
theorem quotedValueInlineCommentParsedWitness :
    envGet (loadEnvFile []
      (.readable (quotedCommentLine ("KEY".toList) ("value".toList))))
      ("KEY".toList) = some ("value".toList) :=
  quotedValueInlineCommentParsed [] ("KEY".toList) ("value".toList)
    (by decide) (by decide) (by decide) (by decide) (by decide) (by decide)

/-- C4 counterexample: the key `FOO` is present in the environment (bound to
the empty string), yet the loader overwrites it from the file — the guard
`!process.env[key]` tests truthiness, not presence. -/
theorem emptyEnvValueOverwritten :
    envGet [(("FOO".toList), ([] : Str))] ("FOO".toList) = some []
    ∧ envGet (loadEnvFile [(("FOO".toList), ([] : Str))]
        (.readable ("FOO=bar".toList))) ("FOO".toList)
      = some ("bar".toList) := by
  decide

/-- C4 (amended): every key already present in the process environment with a
NON-EMPTY value is left unchanged by the loader, regardless of the settings
file's state and content; keys that are absent or bound to the empty string
may be set from the file. -/
theorem nonEmptyEnvValuesPreserved (env : EnvMap) (file : FileState)
    (key v : Str) (hv : v ≠ []) (h : envGet env key = some v) :
    envGet (loadEnvFile env file) key = some v :=
  loadEnvFile_preserves_nonEmpty hv h file

/-- Closed witness for the amended C4: a key bound to `x` survives a file
that assigns it a different value. -/
theorem nonEmptyEnvValuesPreservedWitness :
    envGet (loadEnvFile [(("A".toList), ("x".toList))]
      (.readable ("A=\"other\"".toList))) ("A".toList)
      = some ("x".toList) :=
  nonEmptyEnvValuesPreserved [(("A".toList), ("x".toList))]
    (.readable ("A=\"other\"".toList)) ("A".toList) ("x".toList)
    (by decide) (by decide)

/-- C10 counterexample: for the line `KEY="ab'#c"` the quoted value contains
`#`; the truncated text `"ab'` happens to begin and end with quote
characters, so the surrounding-quote pattern still matches and the stored
value is `ab` — the dangling opening quote is NOT retained. -/
theorem quoteBeforeHashStripped :
    envGet (loadEnvFile [] (.readable ("KEY=\"ab'#c\"".toList)))
      ("KEY".toList) = some ("ab".toList)
    ∧ ("ab".toList : Str) ≠ ("\"ab'".toList : Str) := by
  decide

/-- C10 (amended): the loader strips inline comments before stripping quotes,
so every value newly stored from the file contains no `#`; when the
truncated text does not itself both begin and end with quote characters,
the dangling opening quote is retained, as in `KEY="a#b"` storing `"a`. -/
theorem inlineCommentBeforeQuoteStripping :
    (∀ (env : EnvMap) (file : FileState) (key v : Str),
        envGet (loadEnvFile env file) key = some v →
        envGet env key = some v ∨ '#' ∉ v)
    ∧ envGet (loadEnvFile [] (.readable ("KEY=\"a#b\"".toList)))
        ("KEY".toList) = some ("\"a".toList) :=
  ⟨fun env file key v h => loadEnvFile_no_hash env file key v h, by decide⟩

/-- Closed witness for the amended C10, applied at a file binding `K` to
`x`. -/
theorem inlineCommentBeforeQuoteStrippingWitness :
    envGet [] ("K".toList) = some ("x".toList) ∨ '#' ∉ ("x".toList) :=
  inlineCommentBeforeQuoteStripping.1 [] (.readable ("K=x".toList))
    ("K".toList) ("x".toList) (by decide)

/-- C3 counterexample: a run of the `simple-deploy.sh` pipeline in which the
settings file `.prod.vars` does not exist terminates with exit status 1 —
the missing file is not a silent no-op for this script. -/
theorem missingProdVarsShellExitsOne :
    (simpleDeployShell false true 0 0 ⟨0, [], []⟩).exitCode = 1 := by
  decide

/-- C3 (amended): the purge script's loader and the git-push loader treat a
missing `.prod.vars` as a silent no-op (environment unchanged, exit status
unaffected), but the `simple-deploy.sh` pipeline instead exits 1 when the
file is missing, before build and deploy. -/
theorem missingSettingsFileBehaviorByScript :
    (∀ env : EnvMap, loadEnvFile env .missing = env)
    ∧ (∀ t : Bool, gitPushRun false t = gitPushRun true t)
    ∧ (∀ (tok : Bool) (b d : Nat) (ps : PurgeScriptResult),
        simpleDeployShell false tok b d ps = ⟨1, false, none⟩) :=
  ⟨fun _ => rfl, fun _ => rfl, fun _ _ _ _ => rfl⟩

/-- C2: when the external build command exits with non-zero status, the
TypeScript orchestrator exits 1 without invoking the deploy command, and
the shell pipeline likewise exits 1 with the deploy step never invoked. -/
theorem buildFailureHaltsBeforeDeploy (env : EnvMap)
    (buildExit deployExit : Nat) (fe tok : Bool) (ps : PurgeScriptResult)
    (h : buildExit ≠ 0) :
    managerRun env buildExit deployExit = (1, false)
    ∧ simpleDeployShell fe tok buildExit deployExit ps = ⟨1, false, none⟩ := by
  constructor
  · cases hval : deployValidateEnvironment env with
    | error e => simp [managerRun, hval]
    | ok u => simp [managerRun, hval, h]
  · unfold simpleDeployShell
    split_ifs <;> simp_all

/-- Closed witness for C2: build exit status 2 with the token present. -/
theorem buildFailureHaltsBeforeDeployWitness :
    managerRun [(cloudflareTokenKey, "t".toList)] 2 0 = (1, false)
    ∧ simpleDeployShell true true 2 0 ⟨0, [], []⟩ = ⟨1, false, none⟩ :=
  buildFailureHaltsBeforeDeploy [(cloudflareTokenKey, "t".toList)] 2 0
    true true ⟨0, [], []⟩ (by decide)

theorem purgeAllCacheCall_fst (o : FetchOutcome) :
    (purgeAllCacheCall o).1 = .purgeEverything := by
  cases o <;> rfl

theorem purgeSpecificUrlsCall_fst (urls : List String) (o : FetchOutcome) :
    (purgeSpecificUrlsCall urls o).1 = .files urls := by
  cases o <;> rfl

/-- A failed purge attempt is always caught: the purge call returns a
tolerated failure instead of raising. -/
theorem purgeAllCacheCall_tolerated {o : FetchOutcome}
    (hfail : purgeAttemptFailed o = true) :
    ∃ m, (purgeAllCacheCall o).2 = .toleratedFailure m := by
  cases o with
  | fetchThrew m => exact ⟨m, rfl⟩
  | jsonThrew m => exact ⟨m, rfl⟩
  | ok status statusText body =>
    refine ⟨"Cache purge failed: " ++ cachePurgeErrorHead status statusText body, ?_⟩
    have hfail' : (!responseOk status || !body.success) = true := hfail
    show (if !responseOk status || !body.success then
        PurgeResult.toleratedFailure
          ("Cache purge failed: " ++ cachePurgeErrorHead status statusText body)
      else PurgeResult.purged body.resultId) = _
    rw [if_pos hfail']

/-- Every member of a joined list occurs verbatim inside the joined text. -/
theorem joinWithSep_mem_substring (sep v : Str) (l : List Str) (h : v ∈ l) :
    ∃ p q, joinWithSep sep l = p ++ v ++ q := by
  induction l with
  | nil => cases h
  | cons g gs ih =>
    rcases List.mem_cons.1 h with rfl | h
    · cases gs with
      | nil => exact ⟨[], [], by simp [joinWithSep]⟩
      | cons g' gs' =>
        exact ⟨[], sep ++ joinWithSep sep (g' :: gs'),
          by simp [joinWithSep]⟩
    · cases gs with
      | nil => cases h
      | cons g' gs' =>
        obtain ⟨p, q, hpq⟩ := ih h
        exact ⟨g ++ sep ++ p, q, by simp [joinWithSep, hpq]⟩

/-- C6: whenever the environment marker resolved by the purge script after
loading the settings file (`ENVIRONMENT`, else `NODE_ENV`, defaulting to
`development`) is neither `prod` nor `production`, the purge script exits
with status 0 and issues no HTTP request. -/
theorem nonProductionPurgeSkipsExitZero (env0 : EnvMap) (file : FileState)
    (argv2 : Option String) (urls : List String) (o : FetchOutcome)
    (h1 : resolvedEnvironmentMarker (loadEnvFile env0 file) ≠ prodLiteral)
    (h2 : resolvedEnvironmentMarker (loadEnvFile env0 file) ≠ productionLiteral) :
    purgeScriptRun env0 file argv2 urls o = ⟨0, [], []⟩ := by
  have hval : purgeValidate (loadEnvFile env0 file) = .skippedNotProduction := by
    unfold purgeValidate
    rw [if_pos ⟨h1, h2⟩]
  unfold purgeScriptRun
  rw [hval]

/-- Closed witness for C6: empty environment and missing file resolve the
marker to `development`, so the purge script is a skipped exit-0 run. -/
theorem nonProductionPurgeSkipsExitZeroWitness :
    purgeScriptRun [] .missing (some "all") [] (.fetchThrew "x")
      = ⟨0, [], []⟩ :=
  nonProductionPurgeSkipsExitZero [] .missing (some "all") []
    (.fetchThrew "x") (by decide) (by decide)

/-- C9: a missing `CLOUDFLARE_API_TOKEN` is an unrecoverable validation
failure in the deploy orchestrator (exit 1, deploy never invoked), but an
intentional skip in the stand-alone purge script (exit 0, no request). -/
theorem missingTokenDeployFailsPurgeSkips (env : EnvMap) (b d : Nat)
    (argv2 : Option String) (urls : List String) (o : FetchOutcome)
    (h : envGet env cloudflareTokenKey = none) :
    managerRun env b d = (1, false)
    ∧ purgeScriptRun env .missing argv2 urls o = ⟨0, [], []⟩ := by
  have hfal : envFalsy (envGet env cloudflareTokenKey) = true := by
    rw [h]; rfl
  have hfilter : [cloudflareTokenKey].filter
      (fun v => envFalsy (envGet env v)) = [cloudflareTokenKey] := by
    simp [List.filter, hfal]
  constructor
  · have hvr : deployValidateEnvironment env
        = .error (missingVarsMessage [cloudflareTokenKey]) := by
      unfold deployValidateEnvironment validateRequiredVars
      rw [hfilter, if_pos (by simp)]
    simp [managerRun, hvr]
  · have hload : loadEnvFile env FileState.missing = env := rfl
    unfold purgeScriptRun
    rw [hload]
    cases hpv : purgeValidate env with
    | skippedNotProduction => rfl
    | skippedMissingVars m => rfl
    | proceed =>
      exfalso
      unfold purgeValidate at hpv
      split at hpv
      · exact PurgeValidation.noConfusion hpv
      · rw [hfilter] at hpv
        simp at hpv

/-- Closed witness for C9 at the empty environment. -/
theorem missingTokenDeployFailsPurgeSkipsWitness :
    managerRun [] 0 0 = (1, false)
    ∧ purgeScriptRun [] .missing none [] (.fetchThrew "x") = ⟨0, [], []⟩ :=
  missingTokenDeployFailsPurgeSkips [] 0 0 none [] (.fetchThrew "x")
    (by decide)

/-- C1: in every run in which the deploy step succeeds and the cache-purge
HTTP request fails (non-2xx status, `success:false`, or a thrown
network/JSON error), the shell pipeline still exits with status 0: the
purge client catches the failure (recording a tolerated failure, never an
exception) and the purge script itself also exits 0. -/
theorem purgeFailureNeverFailsDeploy (env : EnvMap) (file : FileState)
    (o : FetchOutcome)
    (hval : purgeValidate (loadEnvFile env file) = .proceed)
    (hfail : purgeAttemptFailed o = true) :
    (simpleDeployShell true true 0 0
      (purgeScriptRun env file (some "all") [] o)).exitCode = 0
    ∧ (purgeScriptRun env file (some "all") [] o).exitCode = 0
    ∧ ∃ m, (purgeScriptRun env file (some "all") [] o).results
        = [PurgeResult.toleratedFailure m] := by
  have hrun : purgeScriptRun env file (some "all") [] o
      = ⟨0, [(purgeAllCacheCall o).1], [(purgeAllCacheCall o).2]⟩ := by
    unfold purgeScriptRun
    rw [hval]
    rfl
  obtain ⟨m, hm⟩ := purgeAllCacheCall_tolerated hfail
  refine ⟨by rw [hrun]; rfl, by rw [hrun], ⟨m, ?_⟩⟩
  rw [hrun]
  simp [hm]

/-- Closed witness for C1: production environment with a token, deploy
success, and an HTTP 500 `success:false` purge response. -/
theorem purgeFailureNeverFailsDeployWitness :
    (simpleDeployShell true true 0 0
      (purgeScriptRun [(environmentKey, prodLiteral),
        (cloudflareTokenKey, "t".toList)] .missing (some "all") []
        (.ok 500 "Internal Server Error"
          ⟨false, [], [], ""⟩))).exitCode = 0
    ∧ (purgeScriptRun [(environmentKey, prodLiteral),
        (cloudflareTokenKey, "t".toList)] .missing (some "all") []
        (.ok 500 "Internal Server Error" ⟨false, [], [], ""⟩)).exitCode = 0
    ∧ ∃ m, (purgeScriptRun [(environmentKey, prodLiteral),
        (cloudflareTokenKey, "t".toList)] .missing (some "all") []
        (.ok 500 "Internal Server Error" ⟨false, [], [], ""⟩)).results
        = [PurgeResult.toleratedFailure m] :=
  purgeFailureNeverFailsDeploy
    [(environmentKey, prodLiteral), (cloudflareTokenKey, "t".toList)]
    .missing (.ok 500 "Internal Server Error" ⟨false, [], [], ""⟩)
    (by decide) (by decide)

/-- C7 counterexample: with an unset environment marker the purge-script
constructor exits 0 before the `urls` usage check, so mode `urls` with
zero URL arguments exits 0 (not 1). -/
theorem urlsModeDevEnvExitsZero :
    purgeScriptRun [] .missing (some "urls") [] (.fetchThrew "x")
      = ⟨0, [], []⟩ := by
  decide

/-- C7 (amended): provided validation proceeds (production environment with
a token), mode `urls` with zero URL arguments exits 1 after the usage
message with no HTTP request, and with one or more URLs issues exactly one
POST whose `files` array is exactly the URL list (hence of that length);
when validation does not proceed the script exits 0 with no request. -/
theorem urlsModeUnderProceedValidation (env : EnvMap) (file : FileState)
    (urls : List String) (o : FetchOutcome)
    (hval : purgeValidate (loadEnvFile env file) = .proceed) :
    purgeScriptRun env file (some "urls") [] o = ⟨1, [], []⟩
    ∧ (urls ≠ [] → purgeScriptRun env file (some "urls") urls o
        = ⟨0, [PurgeBody.files urls], [(purgeSpecificUrlsCall urls o).2]⟩) := by
  constructor
  · unfold purgeScriptRun
    rw [hval]
    rfl
  · intro hne
    unfold purgeScriptRun
    rw [hval]
    show (if ("urls" : String) = "all" then _
      else if ("urls" : String) = "common" then _
      else if ("urls" : String) = "urls" then
        if urls = [] then _ else _
      else _) = _
    rw [if_neg (by decide), if_neg (by decide), if_pos rfl, if_neg hne,
      purgeSpecificUrlsCall_fst]

/-- Closed witness for the amended C7: production environment, one URL. -/
theorem urlsModeUnderProceedValidationWitness :
    purgeScriptRun [(environmentKey, prodLiteral),
      (cloudflareTokenKey, "t".toList)] .missing (some "urls") []
      (.fetchThrew "x") = ⟨1, [], []⟩
    ∧ ((["https://a"] : List String) ≠ [] →
        purgeScriptRun [(environmentKey, prodLiteral),
          (cloudflareTokenKey, "t".toList)] .missing (some "urls")
          ["https://a"] (.fetchThrew "x")
        = ⟨0, [PurgeBody.files ["https://a"]],
             [(purgeSpecificUrlsCall ["https://a"] (.fetchThrew "x")).2]⟩) :=
  urlsModeUnderProceedValidation
    [(environmentKey, prodLiteral), (cloudflareTokenKey, "t".toList)]
    .missing ["https://a"] (.fetchThrew "x") (by decide)

/-- C8 counterexample: with `CLOUDFLARE_API_TOKEN` present but bound to the
empty string, the validator fails although no required variable is absent
— the check is JavaScript truthiness, not presence. -/
theorem emptyTokenValueFailsValidator :
    exceptIsOk (validateRequiredVars [cloudflareTokenKey]
      [(cloudflareTokenKey, ([] : Str))]) = false
    ∧ envGet [(cloudflareTokenKey, ([] : Str))] cloudflareTokenKey
      = some [] := by
  decide

/-- C8 (amended): the environment validator of the deploy orchestrator
(generalised over its hard-coded required list) succeeds exactly when every
required variable has a truthy (present and non-empty) value; when it
fails, its message names every missing-or-empty required variable verbatim;
and with an empty required list it never fails. -/
theorem validatorFailsIffMissingOrEmpty (required : List Str) (env : EnvMap) :
    (validateRequiredVars required env = .ok ()
      ↔ ∀ v ∈ required, envFalsy (envGet env v) = false)
    ∧ (∀ msgText, validateRequiredVars required env = .error msgText →
        ∀ v ∈ required, envFalsy (envGet env v) = true →
        ∃ p q, msgText = p ++ v ++ q)
    ∧ validateRequiredVars [] env = .ok () := by
  refine ⟨?_, ?_, rfl⟩
  · unfold validateRequiredVars
    by_cases hf : required.filter (fun v => envFalsy (envGet env v)) = []
    · rw [if_neg (fun hc => hc hf)]
      constructor
      · intro _ v hv
        have := List.filter_eq_nil_iff.1 hf v hv
        simpa using this
      · intro _; rfl
    · rw [if_pos hf]
      constructor
      · intro hcontra
        exact Except.noConfusion hcontra
      · intro hall
        exfalso
        obtain ⟨x, hx⟩ := List.exists_mem_of_ne_nil _ hf
        obtain ⟨hxr, hxp⟩ := List.mem_filter.1 hx
        rw [hall x hxr] at hxp
        exact Bool.noConfusion hxp
  · intro msgText herr v hv hfal
    unfold validateRequiredVars at herr
    split at herr
    · have hmsg := (Except.error.inj herr).symm
      have hvmem : v ∈ required.filter (fun v => envFalsy (envGet env v)) :=
        List.mem_filter.2 ⟨hv, hfal⟩
      obtain ⟨p, q, hpq⟩ :=
        joinWithSep_mem_substring (", ".toList) v _ hvmem
      refine ⟨missingVarsMsgHead ++ p, q ++ missingVarsMsgTail, ?_⟩
      rw [hmsg]
      unfold missingVarsMessage
      rw [hpq]
      simp [List.append_assoc]
    · exact Except.noConfusion herr

/-- Closed witness for the amended C8: the token name occurs verbatim in the
failure message produced for the empty environment. -/
theorem validatorFailsIffMissingOrEmptyWitness :
    ∃ p q, missingVarsMessage [cloudflareTokenKey]
      = p ++ cloudflareTokenKey ++ q :=
  (validatorFailsIffMissingOrEmpty [cloudflareTokenKey] []).2.1
    (missingVarsMessage [cloudflareTokenKey]) rfl cloudflareTokenKey
    (List.mem_cons_self _ _) rfl
